import Mathlib

/-!
# SystemInfo: the unique process identifier

A verification development for `src/cpp/utils/SystemInfo.hpp`.

The class `eprosima::SystemInfo` is a singleton.  Its private constructor calls
`create_unique_process_id`, which stores in `unique_process_id_` a 32-bit value
made of a random 16-bit value (high half) and the 16 least-significant bits of
the process id (low half).  The three accessors `process_id`,
`unique_process_id` and `host_id` are member functions: a caller reaches them
through `SystemInfo::instance()`.

Machine integers are embedded as `Nat` / `Int` with explicit reductions modulo
`2 ^ 32` and `2 ^ 16` at every place where the C++ types wrap; `int` is the
32-bit two's-complement type of the supported platforms.  The process around
the class (platform process id, host object, random device, static storage of
the singleton) is an explicit state passed through every operation.
-/

namespace eprosima

/-! ## Machine arithmetic -/

/-- Conversion of a signed integer to `uint32_t` (`static_cast<uint32_t>(x)`): the value modulo
`2 ^ 32`, which is also the two's-complement bit pattern of a 32-bit `int`. -/
def static_cast_uint32 (x : Int) : Nat :=
  (x % 2 ^ 32).toNat

/-- Conversion of an unsigned value to `uint32_t`. -/
def uint32_of_nat (x : Nat) : Nat :=
  x % 2 ^ 32

/-- Conversion of an unsigned value to `uint16_t`. -/
def uint16_of_nat (x : Nat) : Nat :=
  x % 2 ^ 16

/-- The 32-bit signed `int` carried by a bit pattern (two's complement). -/
def int_of_bits (n : Nat) : Int :=
  if n % 2 ^ 32 < 2 ^ 31 then ((n % 2 ^ 32 : Nat) : Int) else ((n % 2 ^ 32 : Nat) : Int) - 2 ^ 32

/-- Conversion to `int`, as in `(int)getpid()`. -/
def int_cast (x : Int) : Int :=
  int_of_bits (static_cast_uint32 x)

/-- Operator `a & b` on two `int` operands: bitwise and of the two's-complement patterns. -/
def int_and (a b : Int) : Int :=
  int_of_bits (static_cast_uint32 a &&& static_cast_uint32 b)

/-- Operator `a << k` on a `uint32_t` left operand: bits shifted out of the 32-bit word are lost. -/
def uint32_shl (a k : Nat) : Nat :=
  (a <<< k) % 2 ^ 32

/-- Operator `a | b` on two `uint32_t` operands. -/
def uint32_or (a b : Nat) : Nat :=
  (a ||| b) % 2 ^ 32

/-- Operator `a & b` on two `uint32_t` operands, used to read the low half of an id. -/
def uint32_and (a b : Nat) : Nat :=
  (a &&& b) % 2 ^ 32

/-- Operator `a >> k` on a `uint32_t` left operand, used to read the high half of an id. -/
def uint32_shr (a k : Nat) : Nat :=
  (a >>> k) % 2 ^ 32

/-- Value of `(std::numeric_limits<uint16_t>::max)()`. -/
def numeric_limits_uint16_max : Nat := 65535

/-! ## Collaborators -/

/-- The host-identity collaborator `Host` of `utils/Host.hpp`, reduced to the value its `id()`
query returns.  The header is not part of the sources at hand, so the value is a parameter. -/
structure Host where
  /-- Result of `Host::instance().id()`. -/
  id : Nat
  deriving DecidableEq, Repr

/-- Parameters of a `std::uniform_int_distribution<uint16_t>`: the closed range `[a, b]`. -/
structure uniform_int_distribution where
  /-- Lower bound. -/
  a : Nat
  /-- Upper bound. -/
  b : Nat
  deriving DecidableEq, Repr

/-- Modelled from the spec: the sampling operator of `std::uniform_int_distribution`, a library
type whose code is not part of the sources at hand.  The spec asks for a value of the closed range
`[a, b]` ("uniform over the full 16-bit range [0, 65535]"); the raw output `g` of the generator is
mapped into that range by reduction modulo the size of the range. -/
def uniform_int_distribution.draw (d : uniform_int_distribution) (g : Nat) : Nat :=
  d.a + g % (d.b - d.a + 1)

/-! ## The class and the process around it -/

/-- The data member of `class SystemInfo`. -/
structure SystemInfo where
  /-- Field `uint32_t unique_process_id_`. -/
  unique_process_id_ : Nat
  deriving DecidableEq, Repr

/-- What a running process offers to, and keeps for, `SystemInfo`. -/
structure Process where
  /-- Result of the platform call (`getpid()`, `_getpid()` or `GetCurrentProcessId()`). -/
  getpid : Int
  /-- The object `Host::instance()`. -/
  host : Host
  /-- Outputs of `std::random_device`: entry `k` is the raw value from which the evaluation
  number `k` of `distribution(generator)` in this process is made. -/
  random_device : Nat → Nat
  /-- Number of evaluations of `distribution(generator)` made so far. -/
  entropy_consumed : Nat
  /-- The function-local `static SystemInfo singleton` of `instance()`: `none` until the first
  call of `instance()` has constructed it. -/
  singleton : Option SystemInfo

/-- The two states of the singleton. -/
inductive State where
  | UNINITIALIZED
  | READY
  deriving DecidableEq, Repr

/-- State of a process: whether the static object has been constructed. -/
def Process.state (p : Process) : State :=
  match p.singleton with
  | none => State.UNINITIALIZED
  | some _ => State.READY

/-- Member `int process_id() const`: the platform call, converted to `int`. -/
def SystemInfo.process_id (_self : SystemInfo) (p : Process) : Int :=
  int_cast p.getpid

/-- Member `uint32_t unique_process_id() const`: reads the field. -/
def SystemInfo.unique_process_id (self : SystemInfo) : Nat :=
  self.unique_process_id_

/-- Member `uint16_t host_id() const`: returns `Host::instance().id()` as a `uint16_t`. -/
def SystemInfo.host_id (_self : SystemInfo) (p : Process) : Nat :=
  uint16_of_nat p.host.id

/-- The distribution built at line 107:
`std::uniform_int_distribution<uint16_t> distribution(0, (std::numeric_limits<uint16_t>::max)())`. -/
def SystemInfo.distribution : uniform_int_distribution :=
  { a := 0, b := numeric_limits_uint16_max }

/-- Lines 106-108: `uint16_t rand_value = distribution(generator)`, drawn from the next raw
output of the random device. -/
def SystemInfo.rand_value (p : Process) : Nat :=
  uint16_of_nat (SystemInfo.distribution.draw (p.random_device p.entropy_consumed))

/-- Line 110, the right-hand side:
`(static_cast<uint32_t>(rand_value) << 16) | static_cast<uint32_t>(pid & 0xFFFF)`. -/
def SystemInfo.compose (rand_value : Nat) (pid : Int) : Nat :=
  uint32_or (uint32_shl (uint32_of_nat rand_value) 16) (static_cast_uint32 (int_and pid 0xFFFF))

/-- Member `void create_unique_process_id()`: reads the process id, draws one random value and
writes the field. -/
def SystemInfo.create_unique_process_id (self : SystemInfo) (p : Process) : SystemInfo × Process :=
  let pid := self.process_id p
  let rand_value := SystemInfo.rand_value p
  ({ self with unique_process_id_ := SystemInfo.compose rand_value pid },
   { p with entropy_consumed := p.entropy_consumed + 1 })

/-- The private constructor `SystemInfo()`: the object lives in zeroed static storage and the
constructor body calls `create_unique_process_id`. -/
def SystemInfo.construct (p : Process) : SystemInfo × Process :=
  SystemInfo.create_unique_process_id { unique_process_id_ := 0 } p

/-- Static member `instance()`: constructs the function-local static on the first call and
returns it on every call. -/
def SystemInfo.instance_ (p : Process) : SystemInfo × Process :=
  match p.singleton with
  | some s => (s, p)
  | none =>
    let r := SystemInfo.construct p
    (r.1, { r.2 with singleton := some r.1 })

/-! ## Calls made by clients -/

/-- The operations a client can invoke.  The constructor of the class is private, so each
accessor is reached as `SystemInfo::instance().accessor()`. -/
inductive Call where
  | process_id
  | unique_process_id
  | host_id
  | instance_
  deriving DecidableEq, Repr

/-- Value returned by a call. -/
inductive Value where
  | int (v : Int)
  | uint32 (v : Nat)
  | uint16 (v : Nat)
  | ref (s : SystemInfo)
  deriving DecidableEq, Repr

/-- One client call: evaluate `SystemInfo::instance()`, then the accessor on the object. -/
def call (c : Call) (p : Process) : Value × Process :=
  let r := SystemInfo.instance_ p
  match c with
  | Call.process_id => (Value.int (r.1.process_id r.2), r.2)
  | Call.unique_process_id => (Value.uint32 r.1.unique_process_id, r.2)
  | Call.host_id => (Value.uint16 (r.1.host_id r.2), r.2)
  | Call.instance_ => (Value.ref r.1, r.2)

/-- Process state after a sequence of calls. -/
def run : List Call → Process → Process
  | [], p => p
  | c :: cs, p => run cs (call c p).2

/-- The values returned by a sequence of calls, in order. -/
def results : List Call → Process → List Value
  | [], _ => []
  | c :: cs, p => (call c p).1 :: results cs (call c p).2

/-- The successive process states of a sequence of calls, the starting state first. -/
def trace : List Call → Process → List Process
  | [], p => [p]
  | c :: cs, p => p :: trace cs (call c p).2

/-- Number of steps of a list of states that go from state `a` to state `b`. -/
def transitions (a b : State) : List Process → Nat
  | p :: q :: rest =>
    (if p.state = a ∧ q.state = b then 1 else 0) + transitions a b (q :: rest)
  | _ => 0

/-- A process that has not touched `SystemInfo` yet. -/
def Process.fresh (getpid : Int) (host : Host) (random_device : Nat → Nat) : Process :=
  { getpid := getpid, host := host, random_device := random_device,
    entropy_consumed := 0, singleton := none }

/-! ## Arithmetic of the composition -/

/-- The mask `0xFFFF` keeps the 16 low bits of a natural number: the bits of `65535` that are not
bits of `n` form the complement of `n % 65536` within 16 bits. -/
theorem ldiff_low_mask (n : Nat) : Nat.ldiff 65535 n = 65535 - n % 65536 := by
  apply Nat.eq_of_testBit_eq
  intro i
  rw [Nat.testBit_ldiff]
  have h1 : (65535 : Nat) = 2 ^ 16 - 1 := by norm_num
  have h2 : 65535 - n % 65536 = 2 ^ 16 - (n % 2 ^ 16 + 1) := by omega
  rw [h2, Nat.testBit_two_pow_sub_succ (Nat.mod_lt _ (by norm_num)), h1,
    Nat.testBit_two_pow_sub_one, Nat.testBit_mod_two_pow]
  cases decide (i < 16) <;> simp

/-- The bitwise and of an integer (in unbounded two's complement) with `0xFFFF` is its residue
modulo `65536`. -/
theorem land_low_mask (pid : Int) : Int.land pid 0xFFFF = pid % 65536 := by
  cases pid with
  | ofNat n =>
    show ((n &&& 65535 : Nat) : Int) = _
    have h := Nat.and_pow_two_sub_one_eq_mod n 16
    norm_num at h
    rw [h]
    simp
  | negSucc n =>
    show ((Nat.ldiff 65535 n : Nat) : Int) = _
    rw [ldiff_low_mask]
    have h : Int.negSucc n = -((n : Int) + 1) := rfl
    rw [h]
    omega

/-- The 32-bit operator `pid & 0xFFFF` computes the residue of `pid` modulo `65536`. -/
theorem int_and_low_mask (pid : Int) : int_and pid 0xFFFF = pid % 65536 := by
  have hmask : static_cast_uint32 0xFFFF = 2 ^ 16 - 1 := by decide
  have hand : static_cast_uint32 pid &&& static_cast_uint32 0xFFFF
      = static_cast_uint32 pid % 2 ^ 16 := by
    rw [hmask, Nat.and_pow_two_sub_one_eq_mod]
  unfold int_and
  rw [hand]
  unfold int_of_bits static_cast_uint32
  have h1 : (pid % 2 ^ 32).toNat % 2 ^ 16 % 2 ^ 32 < 2 ^ 31 := by omega
  rw [if_pos h1]
  omega

/-- The 32-bit operator agrees with the bitwise and of unbounded integers on the mask. -/
theorem int_and_eq_land (pid : Int) : int_and pid 0xFFFF = Int.land pid 0xFFFF := by
  rw [int_and_low_mask, land_low_mask]

/-- Converting `pid & 0xFFFF` to `uint32_t` changes nothing: the value is not negative. -/
theorem static_cast_uint32_int_and (pid : Int) :
    static_cast_uint32 (int_and pid 0xFFFF) = (pid % 65536).toNat := by
  rw [int_and_low_mask]
  unfold static_cast_uint32
  omega

/-- Conversion to `int` keeps the 16 low bits. -/
theorem int_cast_low (x : Int) : int_cast x % 65536 = x % 65536 := by
  unfold int_cast int_of_bits static_cast_uint32
  split <;> omega

/-- Closed form of line 110 for any natural number in place of `rand_value`. -/
theorem compose_eq (r : Nat) (pid : Int) :
    SystemInfo.compose r pid = (r % 65536) * 65536 + (pid % 65536).toNat := by
  unfold SystemInfo.compose
  rw [static_cast_uint32_int_and]
  unfold uint32_or uint32_shl uint32_of_nat
  have hlo : (pid % 65536).toNat < 2 ^ 16 := by omega
  have hshl : (r % 2 ^ 32) <<< 16 % 2 ^ 32 = 2 ^ 16 * (r % 65536) := by
    rw [Nat.shiftLeft_eq]
    omega
  rw [hshl, ← Nat.mul_add_lt_is_or hlo]
  omega

/-- The expression of the claim, over unbounded integers, in closed form. -/
theorem ideal_eq (r : Nat) (pid : Int) :
    (r <<< 16) ||| (Int.land pid 0xFFFF).toNat = r * 65536 + (pid % 65536).toNat := by
  rw [land_low_mask]
  have hlo : (pid % 65536).toNat < 2 ^ 16 := by omega
  have hshl : r <<< 16 = 2 ^ 16 * r := by
    rw [Nat.shiftLeft_eq, Nat.mul_comm]
  rw [hshl, ← Nat.mul_add_lt_is_or hlo]
  omega

/-- The drawn value is a 16-bit value. -/
theorem rand_value_lt (p : Process) : SystemInfo.rand_value p < 65536 := by
  unfold SystemInfo.rand_value uint16_of_nat
  omega

/-- The value written by `create_unique_process_id`. -/
theorem create_unique_process_id_fst (self : SystemInfo) (p : Process) :
    ((self.create_unique_process_id p).1).unique_process_id
      = SystemInfo.compose (SystemInfo.rand_value p) (self.process_id p) := rfl

/-! ## The singleton as a state machine -/

theorem instance_of_some (p : Process) (s : SystemInfo) (h : p.singleton = some s) :
    SystemInfo.instance_ p = (s, p) := by
  unfold SystemInfo.instance_
  rw [h]

theorem instance_of_none (p : Process) (h : p.singleton = none) :
    SystemInfo.instance_ p =
      ({ unique_process_id_ := SystemInfo.compose (SystemInfo.rand_value p) (int_cast p.getpid) },
       { p with
          entropy_consumed := p.entropy_consumed + 1
          singleton := some
            { unique_process_id_ :=
                SystemInfo.compose (SystemInfo.rand_value p) (int_cast p.getpid) } }) := by
  unfold SystemInfo.instance_
  rw [h]
  rfl

theorem call_snd (c : Call) (p : Process) : (call c p).2 = (SystemInfo.instance_ p).2 := by
  cases c <;> rfl

theorem call_of_some (c : Call) (p : Process) (s : SystemInfo) (h : p.singleton = some s) :
    (call c p).2 = p := by
  rw [call_snd, instance_of_some p s h]

theorem call_of_none (c : Call) (p : Process) (h : p.singleton = none) :
    (call c p).2 =
      { p with
          entropy_consumed := p.entropy_consumed + 1
          singleton := some
            { unique_process_id_ :=
                SystemInfo.compose (SystemInfo.rand_value p) (int_cast p.getpid) } } := by
  rw [call_snd, instance_of_none p h]

theorem run_of_some (cs : List Call) (p : Process) (s : SystemInfo) (h : p.singleton = some s) :
    run cs p = p := by
  induction cs with
  | nil => rfl
  | cons c cs ih =>
    show run cs (call c p).2 = p
    rw [call_of_some c p s h]
    exact ih

theorem trace_of_some (cs : List Call) (p : Process) (s : SystemInfo) (h : p.singleton = some s) :
    trace cs p = List.replicate (cs.length + 1) p := by
  induction cs with
  | nil => rfl
  | cons c cs ih =>
    show p :: trace cs (call c p).2 = _
    rw [call_of_some c p s h, ih]
    rfl

theorem transitions_replicate (a b : State) (hab : a ≠ b) (n : Nat) (p : Process) :
    transitions a b (List.replicate n p) = 0 := by
  induction n with
  | zero => rfl
  | succ n ih =>
    cases n with
    | zero => rfl
    | succ m =>
      show (if p.state = a ∧ p.state = b then 1 else 0)
        + transitions a b (List.replicate (m + 1) p) = 0
      rw [ih]
      have hne : ¬ (p.state = a ∧ p.state = b) := fun h => hab (h.1.symm.trans h.2)
      simp [hne]

theorem state_of_some (p : Process) (s : SystemInfo) (h : p.singleton = some s) :
    p.state = State.READY := by
  unfold Process.state
  rw [h]

theorem state_of_none (p : Process) (h : p.singleton = none) :
    p.state = State.UNINITIALIZED := by
  unfold Process.state
  rw [h]

theorem trace_cons_of_none (c : Call) (cs : List Call) (p : Process) (h : p.singleton = none) :
    trace (c :: cs) p = p :: List.replicate (cs.length + 1) (call c p).2 := by
  show p :: trace cs (call c p).2 = _
  have hs : (call c p).2.singleton = some
      { unique_process_id_ :=
          SystemInfo.compose (SystemInfo.rand_value p) (int_cast p.getpid) } := by
    rw [call_of_none c p h]
  rw [trace_of_some cs _ _ hs]

/-! ## The composition (claims C1, C2, C3) -/

/-- C1: for every native process id `pid` (what `process_id()` returns, negative values
included) and every random value `r` drawn, the id stored by `create_unique_process_id` is
`(r << 16) | (pid & 0xFFFF)` computed over unbounded integers, it fits in 32 bits, and it is what
`unique_process_id()` returns on the singleton; for `pid = 12345` and `r = 0xABCD` the value is
`0xABCD3039`. -/
theorem unique_process_id_composition (self : SystemInfo) (p : Process) (pid : Int) (r : Nat)
    (hpid : self.process_id p = pid) (hr : SystemInfo.rand_value p = r) :
    ((self.create_unique_process_id p).1).unique_process_id
        = (r <<< 16) ||| (Int.land pid 0xFFFF).toNat
      ∧ (r <<< 16) ||| (Int.land pid 0xFFFF).toNat < 2 ^ 32
      ∧ (p.singleton = none →
          (call Call.unique_process_id p).1
            = Value.uint32 ((r <<< 16) ||| (Int.land pid 0xFFFF).toNat))
      ∧ SystemInfo.compose 0xABCD 12345 = 0xABCD3039 := by
  have hlt : r < 65536 := hr ▸ rand_value_lt p
  have hval : SystemInfo.compose (SystemInfo.rand_value p) (self.process_id p)
      = (r <<< 16) ||| (Int.land pid 0xFFFF).toNat := by
    rw [compose_eq, ideal_eq, hpid, hr, Nat.mod_eq_of_lt hlt]
  refine ⟨?_, ?_, ?_, by decide⟩
  · rw [create_unique_process_id_fst, hval]
  · rw [ideal_eq]
    omega
  · intro hnone
    have hcall : (call Call.unique_process_id p).1
        = Value.uint32 (SystemInfo.instance_ p).1.unique_process_id := rfl
    rw [hcall, instance_of_none p hnone]
    show Value.uint32 (SystemInfo.compose (SystemInfo.rand_value p) (self.process_id p)) = _
    rw [hval]

/-- Witness of C1: a process with native id `12345` whose random device yields `0xABCD`. -/
theorem unique_process_id_composition_witness :
    SystemInfo.process_id ⟨0⟩ (Process.fresh 12345 ⟨1⟩ (fun _ => 0xABCD)) = 12345
      ∧ SystemInfo.rand_value (Process.fresh 12345 ⟨1⟩ (fun _ => 0xABCD)) = 0xABCD
      ∧ (call Call.unique_process_id (Process.fresh 12345 ⟨1⟩ (fun _ => 0xABCD))).1
        = Value.uint32 0xABCD3039 :=
  ⟨by decide, by decide,
   (unique_process_id_composition ⟨0⟩ (Process.fresh 12345 ⟨1⟩ (fun _ => 0xABCD)) 12345 0xABCD
    (by decide) (by decide)).2.2.1 rfl⟩

/-- C2: whatever the random value, the low 16 bits of the stored id are the low 16 bits of the
native process id read by the computation, `composite & 0xFFFF == pid & 0xFFFF`, which are also
the low 16 bits of what the platform call returned. -/
theorem low_half_is_pid (self : SystemInfo) (p : Process) (r : Nat) (pid : Int) :
    uint32_and ((self.create_unique_process_id p).1).unique_process_id 0xFFFF
        = static_cast_uint32 (int_and (self.process_id p) 0xFFFF)
      ∧ ((uint32_and ((self.create_unique_process_id p).1).unique_process_id 0xFFFF : Nat) : Int)
        = p.getpid % 65536
      ∧ uint32_and (SystemInfo.compose r pid) 0xFFFF = static_cast_uint32 (int_and pid 0xFFFF)
      ∧ ((uint32_and (SystemInfo.compose r pid) 0xFFFF : Nat) : Int) = Int.land pid 0xFFFF := by
  have key : ∀ (r : Nat) (pid : Int),
      uint32_and (SystemInfo.compose r pid) 0xFFFF = (pid % 65536).toNat := by
    intro r pid
    have h := Nat.and_pow_two_sub_one_eq_mod (SystemInfo.compose r pid) 16
    have hm : (0xFFFF : Nat) = 2 ^ 16 - 1 := by norm_num
    unfold uint32_and
    rw [hm, h, compose_eq]
    omega
  refine ⟨?_, ?_, ?_, ?_⟩
  · rw [create_unique_process_id_fst, key, static_cast_uint32_int_and]
  · rw [create_unique_process_id_fst, key]
    have h := int_cast_low p.getpid
    unfold SystemInfo.process_id
    omega
  · rw [key, static_cast_uint32_int_and]
  · rw [key, land_low_mask]
    omega

/-- C3: for every 16-bit random value `r` and every native process id, negative or wider than
16 bits, the high 16 bits of the id are exactly `r`: no bit of the process id reaches them. -/
theorem high_half_is_salt (r : Nat) (pid : Int) (hr : r < 65536) :
    uint32_shr (SystemInfo.compose r pid) 16 = r
      ∧ (∀ pid2 : Int,
          uint32_shr (SystemInfo.compose r pid2) 16 = uint32_shr (SystemInfo.compose r pid) 16)
      ∧ (∀ (self : SystemInfo) (p : Process), SystemInfo.rand_value p = r →
          uint32_shr ((self.create_unique_process_id p).1).unique_process_id 16 = r) := by
  have key : ∀ q : Int, uint32_shr (SystemInfo.compose r q) 16 = r := by
    intro q
    unfold uint32_shr
    rw [Nat.shiftRight_eq_div_pow, compose_eq]
    omega
  refine ⟨key pid, fun pid2 => ?_, fun self p h => ?_⟩
  · rw [key pid2, key pid]
  · rw [create_unique_process_id_fst, h, key]

/-- Witness of C3: salt `0xFFFF` with the negative process id `-1`, and salt `0` with a process
id wider than 16 bits. -/
theorem high_half_is_salt_witness :
    uint32_shr (SystemInfo.compose 0xFFFF (-1)) 16 = 0xFFFF
      ∧ uint32_shr (SystemInfo.compose 0 0x7FFFFFFF) 16 = 0 :=
  ⟨(high_half_is_salt 0xFFFF (-1) (by decide)).1,
   (high_half_is_salt 0 0x7FFFFFFF (by decide)).1⟩

/-! ## The random salt (claims C9, C10) -/

/-- C9: the distribution is built with bounds `0` and `65535`; every drawn value lies between
them; every value `r` of `[0, 65535]` is drawn, by the process whose random device yields `r`,
whatever the rest of its state; and for every native process id `pid` and every 32-bit value `v`
whose low 16 bits are those of `pid` some salt `r` of `[0, 65535]` gives `v`, and the process with
that native id whose random device yields `r` draws `r` and gets the id `v`. -/
theorem salt_covers_full_range :
    SystemInfo.distribution.a = 0
      ∧ SystemInfo.distribution.b = 65535
      ∧ (∀ p : Process, SystemInfo.distribution.a ≤ SystemInfo.rand_value p
          ∧ SystemInfo.rand_value p ≤ SystemInfo.distribution.b)
      ∧ (∀ (q : Process) (r : Nat), r ≤ 65535 →
          SystemInfo.rand_value { q with random_device := fun _ => r } = r)
      ∧ (∀ (pid : Int) (v : Nat), v < 2 ^ 32 →
          uint32_and v 0xFFFF = static_cast_uint32 (int_and pid 0xFFFF) →
          ∃ r : Nat, r ≤ 65535 ∧ SystemInfo.compose r pid = v
            ∧ ∀ p : Process, p.singleton = none → SystemInfo.rand_value p = r →
                int_cast p.getpid = pid →
                (call Call.unique_process_id p).1 = Value.uint32 v)
      ∧ (∀ (getpid : Int) (host : Host) (v : Nat), v < 2 ^ 32 →
          uint32_and v 0xFFFF = static_cast_uint32 (int_and (int_cast getpid) 0xFFFF) →
          ∃ r : Nat, r ≤ 65535
            ∧ SystemInfo.rand_value (Process.fresh getpid host (fun _ => r)) = r
            ∧ (call Call.unique_process_id (Process.fresh getpid host (fun _ => r))).1
                = Value.uint32 v) := by
  have hdraw : ∀ (q : Process) (r : Nat), r ≤ 65535 →
      SystemInfo.rand_value { q with random_device := fun _ => r } = r := by
    intro q r hr
    show (0 + r % (65535 - 0 + 1)) % 2 ^ 16 = r
    omega
  have hsalt : ∀ (pid : Int) (v : Nat), v < 2 ^ 32 →
      uint32_and v 0xFFFF = static_cast_uint32 (int_and pid 0xFFFF) →
      v / 65536 ≤ 65535 ∧ SystemInfo.compose (v / 65536) pid = v := by
    intro pid v hv hlow
    have hm : (0xFFFF : Nat) = 2 ^ 16 - 1 := by norm_num
    have hand := Nat.and_pow_two_sub_one_eq_mod v 16
    rw [static_cast_uint32_int_and] at hlow
    unfold uint32_and at hlow
    rw [hm, hand] at hlow
    refine ⟨by omega, ?_⟩
    rw [compose_eq]
    omega
  have hget : ∀ (p : Process) (r : Nat) (pid : Int) (v : Nat), SystemInfo.compose r pid = v →
      p.singleton = none → SystemInfo.rand_value p = r → int_cast p.getpid = pid →
      (call Call.unique_process_id p).1 = Value.uint32 v := by
    intro p r pid v hcomp hnone hr hpid
    have hcall : (call Call.unique_process_id p).1
        = Value.uint32 (SystemInfo.instance_ p).1.unique_process_id := rfl
    rw [hcall, instance_of_none p hnone]
    show Value.uint32 (SystemInfo.compose (SystemInfo.rand_value p) (int_cast p.getpid)) = _
    rw [hr, hpid, hcomp]
  refine ⟨rfl, rfl, fun p => ⟨Nat.zero_le _, ?_⟩, hdraw, ?_, ?_⟩
  · have h := rand_value_lt p
    show SystemInfo.rand_value p ≤ 65535
    omega
  · intro pid v hv hlow
    obtain ⟨hle, hcomp⟩ := hsalt pid v hv hlow
    exact ⟨v / 65536, hle, hcomp, fun p hnone hr hpid => hget p _ pid v hcomp hnone hr hpid⟩
  · intro getpid host v hv hlow
    obtain ⟨hle, hcomp⟩ := hsalt (int_cast getpid) v hv hlow
    have hr : SystemInfo.rand_value (Process.fresh getpid host (fun _ => v / 65536))
        = v / 65536 := hdraw (Process.fresh getpid host (fun _ => 0)) (v / 65536) hle
    exact ⟨v / 65536, hle, hr, hget _ _ _ v hcomp rfl hr rfl⟩

/-- Witness of C9: the salt `0xFFFF` is drawn by the process whose random device yields it, and
with the native process id `12345` that process gets the id `0xFFFF3039`. -/
theorem salt_covers_full_range_witness :
    uint32_and 0xFFFF3039 0xFFFF = static_cast_uint32 (int_and (int_cast 12345) 0xFFFF)
      ∧ SystemInfo.rand_value (Process.fresh 12345 ⟨1⟩ (fun _ => 0xFFFF)) = 0xFFFF
      ∧ (∃ r : Nat, r ≤ 65535
          ∧ SystemInfo.rand_value (Process.fresh 12345 ⟨1⟩ (fun _ => r)) = r
          ∧ (call Call.unique_process_id (Process.fresh 12345 ⟨1⟩ (fun _ => r))).1
              = Value.uint32 0xFFFF3039) :=
  ⟨by decide,
   salt_covers_full_range.2.2.2.1 (Process.fresh 12345 ⟨1⟩ (fun _ => 0)) 0xFFFF (by decide),
   salt_covers_full_range.2.2.2.2.2 12345 ⟨1⟩ 0xFFFF3039 (by decide) (by decide)⟩

/-- C10: for 16-bit salts `r1`, `r2` and native process ids `p1`, `p2`, the ids are equal exactly
when the salts are equal and the process ids agree in their low 16 bits; so equal low bits with
different salts give different ids, and process ids that differ only above bit 15 give the same
id under the same salt. -/
theorem collision_iff (r1 r2 : Nat) (p1 p2 : Int) (h1 : r1 < 65536) (h2 : r2 < 65536) :
    (SystemInfo.compose r1 p1 = SystemInfo.compose r2 p2
        ↔ r1 = r2 ∧ int_and p1 0xFFFF = int_and p2 0xFFFF)
      ∧ (int_and p1 0xFFFF = int_and p2 0xFFFF → r1 ≠ r2 →
          SystemInfo.compose r1 p1 ≠ SystemInfo.compose r2 p2)
      ∧ (∀ k : Int, SystemInfo.compose r1 (p1 + 65536 * k) = SystemInfo.compose r1 p1) := by
  have hiff : SystemInfo.compose r1 p1 = SystemInfo.compose r2 p2
      ↔ r1 = r2 ∧ int_and p1 0xFFFF = int_and p2 0xFFFF := by
    rw [compose_eq, compose_eq, int_and_low_mask, int_and_low_mask]
    constructor
    · intro h
      constructor <;> omega
    · rintro ⟨hr, hp⟩
      rw [hr, hp]
  refine ⟨hiff, fun hp hr hc => hr (hiff.mp hc).1, fun k => ?_⟩
  rw [compose_eq, compose_eq]
  have hk : (p1 + 65536 * k) % 65536 = p1 % 65536 := by omega
  rw [hk]

/-- Witness of C10: process ids `5` and `65541` under salt `7` collide, and `5` under salts `7`
and `8` does not. -/
theorem collision_iff_witness :
    SystemInfo.compose 7 5 = SystemInfo.compose 7 65541
      ∧ SystemInfo.compose 7 5 ≠ SystemInfo.compose 8 5 :=
  ⟨((collision_iff 7 7 5 65541 (by decide) (by decide)).1).mpr ⟨rfl, by decide⟩,
   (collision_iff 7 8 5 5 (by decide) (by decide)).2.1 rfl (by decide)⟩

/-! ## The accessors and the cached value (claims C4, C5) -/

/-- After any call the singleton exists, and a call of `unique_process_id` returns its field. -/
theorem call_unique_process_id_spec (p : Process) :
    ∃ s : SystemInfo, (call Call.unique_process_id p).2.singleton = some s
      ∧ (call Call.unique_process_id p).1 = Value.uint32 s.unique_process_id_ := by
  cases hs : p.singleton with
  | some s =>
    refine ⟨s, ?_, ?_⟩
    · rw [call_of_some _ p s hs, hs]
    · show Value.uint32 (SystemInfo.instance_ p).1.unique_process_id = _
      rw [instance_of_some p s hs]
      rfl
  | none =>
    refine ⟨{ unique_process_id_ :=
      SystemInfo.compose (SystemInfo.rand_value p) (int_cast p.getpid) }, ?_, ?_⟩
    · rw [call_of_none _ p hs]
    · show Value.uint32 (SystemInfo.instance_ p).1.unique_process_id = _
      rw [instance_of_none p hs]
      rfl

/-- In a state where the singleton exists, each result of a run is the result of its call in
that same state. -/
theorem results_of_some (cs : List Call) (p : Process) (s : SystemInfo)
    (h : p.singleton = some s) : results cs p = cs.map (fun c => (call c p).1) := by
  induction cs with
  | nil => rfl
  | cons c cs ih =>
    show (call c p).1 :: results cs (call c p).2 = _
    rw [call_of_some c p s h, ih]
    rfl

/-- C4: once `unique_process_id()` has been called, a later call returns the same value after
every sequence of calls in between, also when the random device is replaced by any other one
after the first call; in such a run every call of `unique_process_id()` returns that value; these
calls draw no random value, and in a state where the singleton exists the call returns the
cached field and leaves the process as it is. -/
theorem unique_process_id_cached (p : Process) (cs : List Call) (g : Nat → Nat) :
    (call Call.unique_process_id
        (run cs { (call Call.unique_process_id p).2 with random_device := g })).1
        = (call Call.unique_process_id p).1
      ∧ (call Call.unique_process_id
          (run cs { (call Call.unique_process_id p).2 with random_device := g })).2.entropy_consumed
        = (call Call.unique_process_id p).2.entropy_consumed
      ∧ (∀ i : Nat, cs[i]? = some Call.unique_process_id →
          (results cs { (call Call.unique_process_id p).2 with random_device := g })[i]?
            = some (call Call.unique_process_id p).1)
      ∧ (∀ s : SystemInfo, p.singleton = some s →
          call Call.unique_process_id p = (Value.uint32 s.unique_process_id_, p)) := by
  obtain ⟨s, hs, hv⟩ := call_unique_process_id_spec p
  have hs2 : ({ (call Call.unique_process_id p).2 with random_device := g } : Process).singleton
      = some s := hs
  have hcall : ∀ (q : Process) (t : SystemInfo), q.singleton = some t →
      call Call.unique_process_id q = (Value.uint32 t.unique_process_id_, q) := by
    intro q t ht
    show (Value.uint32 (SystemInfo.instance_ q).1.unique_process_id, (SystemInfo.instance_ q).2)
      = _
    rw [instance_of_some q t ht]
    rfl
  rw [run_of_some cs _ s hs2, results_of_some cs _ s hs2, hcall _ s hs2, hv]
  refine ⟨rfl, rfl, fun i hi => ?_, fun t ht => hcall p t ht⟩
  rw [List.getElem?_map, hi, Option.map_some', hcall _ s hs2]

/-- C5: for every 16-bit value `h` returned by `Host::instance().id()`, `host_id()` returns
exactly `h`, on any object and in any process with that host: the cached id, the native process
id and the random device play no part. -/
theorem host_id_passthrough (p : Process) (h : Nat) (hh : h < 65536) (hhost : p.host.id = h) :
    (∀ self : SystemInfo, self.host_id p = h)
      ∧ (call Call.host_id p).1 = Value.uint16 h
      ∧ (∀ q : Process, q.host = p.host → (call Call.host_id q).1 = Value.uint16 h) := by
  have key : ∀ (q : Process) (self : SystemInfo), q.host = p.host → self.host_id q = h := by
    intro q self hq
    unfold SystemInfo.host_id uint16_of_nat
    rw [hq, hhost]
    omega
  have hcall : ∀ q : Process, q.host = p.host → (call Call.host_id q).1 = Value.uint16 h := by
    intro q hq
    show Value.uint16 ((SystemInfo.instance_ q).1.host_id (SystemInfo.instance_ q).2) = _
    have hhost2 : (SystemInfo.instance_ q).2.host = p.host := by
      cases hs : q.singleton with
      | some s => rw [instance_of_some q s hs]; exact hq
      | none => rw [instance_of_none q hs]; exact hq
    rw [key _ _ hhost2]
  exact ⟨fun self => key p self rfl, hcall p rfl, hcall⟩

/-- Witness of C5: the host ids `0` and `65535`, each in a process with its own native id,
random device and cached state. -/
theorem host_id_passthrough_witness :
    (call Call.host_id (Process.fresh 12345 ⟨0⟩ (fun _ => 0xABCD))).1 = Value.uint16 0
      ∧ (call Call.host_id
          { getpid := -7, host := ⟨65535⟩, random_device := fun k => k,
            entropy_consumed := 3, singleton := some ⟨42⟩ }).1 = Value.uint16 65535 :=
  ⟨(host_id_passthrough (Process.fresh 12345 ⟨0⟩ (fun _ => 0xABCD)) 0 (by decide) rfl).2.1,
   (host_id_passthrough
      { getpid := -7, host := ⟨65535⟩, random_device := fun k => k,
        entropy_consumed := 3, singleton := some ⟨42⟩ } 65535 (by decide) rfl).2.1⟩

/-! ## The state machine (claims C6, C7) -/

/-- Every state of a list of copies of `q` is `q`. -/
theorem mem_trace_cons_of_none (c : Call) (cs : List Call) (p q : Process)
    (h : p.singleton = none) (hq : q ∈ trace (c :: cs) p) : q = p ∨ q = (call c p).2 := by
  rw [trace_cons_of_none c cs p h] at hq
  rcases List.mem_cons.mp hq with h1 | h2
  · exact Or.inl h1
  · exact Or.inr (List.eq_of_mem_replicate h2)

/-- C6: the id is computed at most once per process.  In every run from state `UNINITIALIZED`
the transition to `READY` occurs at most once, and exactly once as soon as the run makes a call
(before any call nothing of the class has run and the state is still `UNINITIALIZED`); no step
goes from `READY` back to `UNINITIALIZED`; and every `READY` state of the run holds the value
stored by that one computation, one random value having been drawn: no later call of
`process_id`, `unique_process_id`, `host_id` or `instance` writes it. -/
theorem single_computation (p : Process) (cs : List Call) (h : p.singleton = none) :
    transitions State.UNINITIALIZED State.READY (trace cs p) ≤ 1
      ∧ (cs ≠ [] → transitions State.UNINITIALIZED State.READY (trace cs p) = 1)
      ∧ (cs = [] → transitions State.UNINITIALIZED State.READY (trace cs p) = 0)
      ∧ transitions State.READY State.UNINITIALIZED (trace cs p) = 0
      ∧ (∀ q ∈ trace cs p, q.state = State.READY →
          q.singleton = some
              { unique_process_id_ :=
                  SystemInfo.compose (SystemInfo.rand_value p) (int_cast p.getpid) }
            ∧ q.entropy_consumed = p.entropy_consumed + 1) := by
  cases cs with
  | nil =>
    refine ⟨Nat.zero_le _, fun hne => absurd rfl hne, fun _ => rfl, rfl, ?_⟩
    intro q hq hready
    have hqp : q = p := List.mem_singleton.mp hq
    rw [hqp, state_of_none p h] at hready
    exact absurd hready (by decide)
  | cons c cs =>
    have hs : (call c p).2.singleton = some
        { unique_process_id_ :=
            SystemInfo.compose (SystemInfo.rand_value p) (int_cast p.getpid) } := by
      rw [call_of_none c p h]
    have hent : (call c p).2.entropy_consumed = p.entropy_consumed + 1 := by
      rw [call_of_none c p h]
    have hready : (call c p).2.state = State.READY := state_of_some _ _ hs
    have hup : transitions State.UNINITIALIZED State.READY (trace (c :: cs) p) = 1 := by
      rw [trace_cons_of_none c cs p h]
      show (if p.state = State.UNINITIALIZED ∧ (call c p).2.state = State.READY then 1 else 0)
        + transitions State.UNINITIALIZED State.READY
            (List.replicate (cs.length + 1) (call c p).2) = 1
      rw [transitions_replicate _ _ (by decide), if_pos ⟨state_of_none p h, hready⟩]
    have hdown : transitions State.READY State.UNINITIALIZED (trace (c :: cs) p) = 0 := by
      rw [trace_cons_of_none c cs p h]
      show (if p.state = State.READY ∧ (call c p).2.state = State.UNINITIALIZED then 1 else 0)
        + transitions State.READY State.UNINITIALIZED
            (List.replicate (cs.length + 1) (call c p).2) = 0
      rw [transitions_replicate _ _ (by decide), state_of_none p h]
      simp
    refine ⟨by omega, fun _ => hup, fun hnil => absurd hnil (List.cons_ne_nil c cs), hdown, ?_⟩
    intro q hq hqready
    rcases mem_trace_cons_of_none c cs p q h hq with hqp | hqc
    · rw [hqp, state_of_none p h] at hqready
      exact absurd hqready (by decide)
    · rw [hqc]
      exact ⟨hs, hent⟩

/-- Witness of C6: a run of four calls from a process that has not touched the class. -/
theorem single_computation_witness :
    (Process.fresh 12345 ⟨1⟩ (fun k => 0xABCD + k)).singleton = none
      ∧ transitions State.UNINITIALIZED State.READY
          (trace [Call.host_id, Call.unique_process_id, Call.process_id, Call.unique_process_id]
            (Process.fresh 12345 ⟨1⟩ (fun k => 0xABCD + k))) = 1 :=
  ⟨rfl,
   (single_computation (Process.fresh 12345 ⟨1⟩ (fun k => 0xABCD + k))
      [Call.host_id, Call.unique_process_id, Call.process_id, Call.unique_process_id] rfl).2.1
      (by decide)⟩

/-- Counterexample to C7 as stated: in state `UNINITIALIZED` a call of `process_id()`, and
likewise a call of `host_id()`, made through `instance()`, ends in state `READY` with one random
value drawn. -/
theorem accessor_in_uninitialized_counterexample :
    (Process.fresh 12345 ⟨1⟩ (fun _ => 0xABCD)).state = State.UNINITIALIZED
      ∧ (call Call.process_id (Process.fresh 12345 ⟨1⟩ (fun _ => 0xABCD))).2.state = State.READY
      ∧ (call Call.process_id (Process.fresh 12345 ⟨1⟩ (fun _ => 0xABCD))).2.entropy_consumed = 1
      ∧ (call Call.process_id (Process.fresh 12345 ⟨1⟩ (fun _ => 0xABCD))).2.singleton
          = some ⟨0xABCD3039⟩
      ∧ (call Call.host_id (Process.fresh 12345 ⟨1⟩ (fun _ => 0xABCD))).2.state = State.READY
      ∧ (call Call.host_id (Process.fresh 12345 ⟨1⟩ (fun _ => 0xABCD))).2.entropy_consumed = 1
      ∧ ¬ ((call Call.process_id (Process.fresh 12345 ⟨1⟩ (fun _ => 0xABCD))).2.state
            = State.UNINITIALIZED
          ∧ (call Call.process_id (Process.fresh 12345 ⟨1⟩ (fun _ => 0xABCD))).2.entropy_consumed
            = (Process.fresh 12345 ⟨1⟩ (fun _ => 0xABCD)).entropy_consumed) := by
  decide

/-- C7, amended: the computation of the id and the consumption of one random value are triggered
by the first evaluation of `instance()`, whichever call is made: any call in state `UNINITIALIZED`
ends in state `READY` with the id stored and one random value drawn.  In state `READY` every
call, `process_id()` and `host_id()` included, leaves the whole process as it is, and these two
members read no field of the object. -/
theorem first_access_triggers_computation (p : Process) (c : Call) :
    (p.singleton = none →
        (call c p).2.state = State.READY
          ∧ (call c p).2.entropy_consumed = p.entropy_consumed + 1
          ∧ (call c p).2.singleton = some
              { unique_process_id_ :=
                  SystemInfo.compose (SystemInfo.rand_value p) (int_cast p.getpid) })
      ∧ (∀ s : SystemInfo, p.singleton = some s → (call c p).2 = p)
      ∧ (∀ s1 s2 : SystemInfo,
          s1.process_id p = s2.process_id p ∧ s1.host_id p = s2.host_id p) := by
  refine ⟨fun h => ?_, fun s hs => call_of_some c p s hs, fun _ _ => ⟨rfl, rfl⟩⟩
  have hs : (call c p).2.singleton = some
      { unique_process_id_ :=
          SystemInfo.compose (SystemInfo.rand_value p) (int_cast p.getpid) } := by
    rw [call_of_none c p h]
  refine ⟨state_of_some _ _ hs, ?_, hs⟩
  rw [call_of_none c p h]

/-- Witness of C7, amended: `host_id()` as the first call, and `process_id()` on a process whose
singleton exists. -/
theorem first_access_triggers_computation_witness :
    (call Call.host_id (Process.fresh 12345 ⟨1⟩ (fun _ => 0xABCD))).2.state = State.READY
      ∧ (call Call.process_id
          { getpid := -7, host := ⟨9⟩, random_device := fun k => k,
            entropy_consumed := 1, singleton := some ⟨42⟩ }).2.entropy_consumed = 1 :=
  ⟨((first_access_triggers_computation (Process.fresh 12345 ⟨1⟩ (fun _ => 0xABCD))
      Call.host_id).1 rfl).1,
   congrArg Process.entropy_consumed
    ((first_access_triggers_computation
      { getpid := -7, host := ⟨9⟩, random_device := fun k => k,
        entropy_consumed := 1, singleton := some ⟨42⟩ } Call.process_id).2.1 ⟨42⟩ rfl)⟩

end eprosima
